import Mathlib

set_option maxRecDepth 8000

/- Shallow embedding of the steganography core of the repository
   (src/sten/mod.rs): the CRC-32 checksum (get_crc), the LSB
   bit-embedding (Stenable::sten), the extraction (Destenable::desten)
   and the per-type value codecs.  Bytes are modelled as Nat (with
   hypotheses bounding them below 256 where byte width matters), byte
   buffers as List Nat.  The mutable carrier of sten becomes explicit
   state passing: sten returns the result together with the final
   carrier.  The extraction path of the source contains two unchecked
   operations (an unbounded slice and an unchecked subtraction); these
   are modelled by a distinguished fault outcome. -/

/-- The error enumeration StenError of the source.  The image adapter
error wraps a type outside the embedded core and carries no structure
here. -/
inductive StenError : Type where
  | imageIoError
  | payloadTooLarge (actual max : Nat)
  | badPayload
  | failedChecksum
  | failedParsing
  deriving DecidableEq

/-- Outcome of the extraction: success, a StenError, or an unchecked
runtime fault (out-of-range slice or subtraction overflow in the
source). -/
inductive DestenResult (α : Type) where
  | ok (v : α)
  | err (e : StenError)
  | fault
  deriving DecidableEq

/-- One inner round of get_crc: mask = (crc & 1) * 0xedb88320;
crc = (crc >> 1) ^ mask. -/
def crc_round (crc : Nat) : Nat :=
  (crc >>> 1) ^^^ ((crc &&& 1) * 0xedb88320)

/-- Body of the outer loop of get_crc for one input byte: XOR the byte
into the running value, then 8 rounds. -/
def crc_update (crc byte : Nat) : Nat :=
  crc_round^[8] (crc ^^^ byte)

/-- get_crc from the source: complement the seed (in 32 bits), process
every byte, complement the result. -/
def get_crc (seed : Nat) (data : List Nat) : Nat :=
  (data.foldl crc_update (seed ^^^ 0xFFFFFFFF)) ^^^ 0xFFFFFFFF

/-- u32::to_le_bytes composed with the `as u32` truncation of the
source: the four little-endian bytes of the low 32 bits. -/
def u32_to_le_bytes (n : Nat) : List Nat :=
  [n % 256, (n >>> 8) % 256, (n >>> 16) % 256, (n >>> 24) % 256]

/-- u32::from_le_bytes on a four-byte list (only ever applied to one in
the source). -/
def u32_from_le_bytes : List Nat → Nat
  | [a, b, c, d] => a + b * 256 + c * 65536 + d * 16777216
  | _ => 0

/-- The eight bits of one frame byte, least-significant first:
(payload_byte >> payload_bit_pos) & 1 for positions 0..7. -/
def byteBits (b : Nat) : List Nat :=
  [(b >>> 0) &&& 1, (b >>> 1) &&& 1, (b >>> 2) &&& 1, (b >>> 3) &&& 1,
   (b >>> 4) &&& 1, (b >>> 5) &&& 1, (b >>> 6) &&& 1, (b >>> 7) &&& 1]

/-- The bit stream of a frame: bytes in order, bits LSB-first within
each byte, exactly the order of the nested embedding loops of sten. -/
def frameBits : List Nat → List Nat
  | [] => []
  | b :: rest => byteBits b ++ frameBits rest

/-- The embedding loop of sten: each frame bit is written into the next
carrier byte by container[pos] &= 0xFE; container[pos] |= bit.  The
size check of sten guarantees the bit list never outruns the carrier. -/
def writeBits : List Nat → List Nat → List Nat
  | [], c => c
  | _ :: _, [] => []
  | bit :: bits, byte :: c => ((byte &&& 0xFE) ||| bit) :: writeBits bits c

/-- The frame built by sten before embedding: payload, then the four
little-endian CRC bytes, the whole prefixed by its length as a u32. -/
def stenFrame (payload : List Nat) : List Nat :=
  let crc := u32_to_le_bytes (get_crc 0 payload)
  let payload1 := payload ++ crc
  u32_to_le_bytes payload1.length ++ payload1

/-- Stenable::sten, in explicit-state style: given the raw payload bytes
(get_raw_bytes of the value) and the carrier, return the Result and the
final carrier.  On the PayloadTooLarge path nothing has been written. -/
def sten (payload container : List Nat) : Except StenError Unit × List Nat :=
  let new_payload := stenFrame payload
  let max_size := container.length / 8
  if new_payload.length > max_size then
    (.error (.payloadTooLarge new_payload.length max_size), container)
  else
    (.ok (), writeBits (frameBits new_payload) container)

/-- The length decoder of desten: container[..32].iter().map(b & 1)
.enumerate().map((b as usize) << i).sum(), with i starting at the given
offset. -/
def decodeLen : List Nat → Nat → Nat
  | [], _ => 0
  | b :: rest, i => ((b &&& 1) <<< i) + decodeLen rest (i + 1)

/-- The payload reconstruction loop of desten: OR the LSB of each
carrier byte into the accumulator at position bit_read; after 8 bits
push the byte and reset. -/
def readPayload : List Nat → Nat → Nat → List Nat
  | [], _, _ => []
  | b :: rest, acc, bit_read =>
    let acc' := acc ||| ((b &&& 1) <<< bit_read)
    if bit_read + 1 = 8 then acc' :: readPayload rest 0 0
    else readPayload rest acc' (bit_read + 1)

/-- Destenable::desten, parametric in the target type's from_raw_bytes.
The two unchecked operations of the source are modelled by fault: the
slice container[32..32+bytes_to_read] when it exceeds the carrier, and
payload_with_checksum[..len-4] when len < 4. -/
def desten {α : Type} (from_raw_bytes : List Nat → Option α)
    (container : List Nat) : DestenResult α :=
  if container.length < 32 then .err .badPayload
  else
    let payload_size := decodeLen (container.take 32) 0
    let bytes_to_read := payload_size * 8
    if container.length < 32 + bytes_to_read then .fault
    else
      let payload_with_checksum := readPayload ((container.drop 32).take bytes_to_read) 0 0
      if payload_with_checksum.length < 4 then .fault
      else
        let payload := payload_with_checksum.take (payload_with_checksum.length - 4)
        let expected := u32_from_le_bytes (payload_with_checksum.drop (payload_with_checksum.length - 4))
        let actual := get_crc 0 payload
        if expected ≠ actual then .err .failedChecksum
        else
          match from_raw_bytes payload with
          | none => .err .failedParsing
          | some v => .ok v

/-- Value codec for Vec<u8>: get_raw_bytes is the identity. -/
def vec_get_raw_bytes (v : List Nat) : List Nat := v

/-- Value codec for Vec<u8>: from_raw_bytes always succeeds with the
bytes themselves. -/
def vec_from_raw_bytes (data : List Nat) : Option (List Nat) := some data

/-- Value codec for u8: get_raw_bytes is the singleton list. -/
def u8_get_raw_bytes (v : Nat) : List Nat := [v]

/-- Value codec for u8: from_raw_bytes is data.first().copied(). -/
def u8_from_raw_bytes (data : List Nat) : Option Nat := data.head?

/-- Value codec for Option<T>: the present value's bytes, or the empty
sequence for the absent value. -/
def option_get_raw_bytes {α : Type} (tGet : α → List Nat) : Option α → List Nat
  | some t => tGet t
  | none => []

/-- Value codec for Option<T>: T::from_raw_bytes(data).map(Some). -/
def option_from_raw_bytes {α : Type} (tFrom : List Nat → Option α)
    (data : List Nat) : Option (Option α) :=
  (tFrom data).map some

/-- The reference CRC-32 round as the specification words it: if the
low bit is set, shift right one and XOR 0xEDB88320, else shift right
one. -/
def crc_round_spec (crc : Nat) : Nat :=
  if crc % 2 = 1 then (crc >>> 1) ^^^ 0xEDB88320 else crc >>> 1

/-- The reference bit-reflected CRC-32 (zlib/PNG variant) as the
specification words it, for the refinement claim about get_crc. -/
def get_crc_spec (seed : Nat) (data : List Nat) : Nat :=
  (data.foldl (fun crc byte => crc_round_spec^[8] (crc ^^^ byte))
    (seed ^^^ 0xFFFFFFFF)) ^^^ 0xFFFFFFFF

instance : DecidableEq (Except StenError Unit) := fun a b =>
  match a, b with
  | .ok x, .ok y => .isTrue (by cases x; cases y; rfl)
  | .error x, .error y =>
      if h : x = y then .isTrue (by rw [h]) else .isFalse (by simp [h])
  | .ok _, .error _ => .isFalse (by simp)
  | .error _, .ok _ => .isFalse (by simp)

lemma and_one_lt_two (x : Nat) : x &&& 1 < 2 :=
  Nat.lt_of_le_of_lt Nat.and_le_right (by norm_num)

lemma and_one_idem (x : Nat) : (x &&& 1) &&& 1 = x &&& 1 := by
  have h : (1 : Nat) &&& 1 = 1 := by decide
  rw [Nat.and_assoc, h]

lemma write_lsb : ∀ b < 256, ∀ bit < 2, ((b &&& 0xFE) ||| bit) &&& 1 = bit := by decide

lemma write_hi : ∀ b < 256, ∀ bit < 2, ((b &&& 0xFE) ||| bit) >>> 1 = b >>> 1 := by decide

lemma frameBits_length (l : List Nat) : (frameBits l).length = 8 * l.length := by
  induction l with
  | nil => simp [frameBits]
  | cons b rest ih => simp [frameBits, byteBits, ih]; omega

lemma frameBits_lt_two (l : List Nat) : ∀ x ∈ frameBits l, x < 2 := by
  induction l with
  | nil => simp [frameBits]
  | cons b rest ih =>
    intro x hx
    simp only [frameBits, List.mem_append] at hx
    rcases hx with hx | hx
    · simp only [byteBits, List.mem_cons, List.not_mem_nil, or_false] at hx
      rcases hx with h | h | h | h | h | h | h | h <;> exact h ▸ and_one_lt_two _
    · exact ih x hx

lemma writeBits_length (bits c : List Nat) (h : bits.length ≤ c.length) :
    (writeBits bits c).length = c.length := by
  induction bits generalizing c with
  | nil => simp [writeBits]
  | cons bit bits ih =>
    cases c with
    | nil => simp at h
    | cons byte c =>
      simp only [writeBits, List.length_cons]
      rw [ih]
      simpa using h

lemma writeBits_drop (bits c : List Nat) :
    (writeBits bits c).drop bits.length = c.drop bits.length := by
  induction bits generalizing c with
  | nil => simp [writeBits]
  | cons bit bits ih =>
    cases c with
    | nil => simp [writeBits]
    | cons byte c => simpa [writeBits] using ih c

lemma writeBits_map_and_one (bits c : List Nat) (h2 : ∀ x ∈ bits, x < 2)
    (hc : ∀ b ∈ c, b < 256) (hl : bits.length ≤ c.length) :
    (writeBits bits c).map (· &&& 1) = bits ++ (c.drop bits.length).map (· &&& 1) := by
  induction bits generalizing c with
  | nil => simp [writeBits]
  | cons bit bits ih =>
    cases c with
    | nil => simp at hl
    | cons byte c =>
      simp only [writeBits, List.map_cons, List.length_cons, List.drop_succ_cons,
        List.cons_append]
      rw [write_lsb byte (hc byte (by simp)) bit (h2 bit (by simp)),
        ih c (fun x hx => h2 x (by simp [hx])) (fun b hb => hc b (by simp [hb]))
          (by simpa using hl)]

lemma writeBits_map_shiftRight (bits c : List Nat) (h2 : ∀ x ∈ bits, x < 2)
    (hc : ∀ b ∈ c, b < 256) :
    (writeBits bits c).map (· >>> 1) = c.map (· >>> 1) := by
  induction bits generalizing c with
  | nil => simp [writeBits]
  | cons bit bits ih =>
    cases c with
    | nil => simp [writeBits]
    | cons byte c =>
      simp only [writeBits, List.map_cons]
      rw [write_hi byte (hc byte (by simp)) bit (h2 bit (by simp)),
        ih c (fun x hx => h2 x (by simp [hx])) (fun b hb => hc b (by simp [hb]))]

lemma readPayload_map_and_one (l : List Nat) : ∀ acc k,
    readPayload (l.map (· &&& 1)) acc k = readPayload l acc k := by
  induction l with
  | nil => intro acc k; rfl
  | cons b rest ih =>
    intro acc k
    simp only [List.map_cons, readPayload, and_one_idem]
    split
    · rw [ih]
    · rw [ih]

lemma decodeLen_map_and_one (l : List Nat) : ∀ i,
    decodeLen (l.map (· &&& 1)) i = decodeLen l i := by
  induction l with
  | nil => intro i; rfl
  | cons b rest ih =>
    intro i
    simp only [List.map_cons, decodeLen, and_one_idem, ih]

lemma readPayload_byteBits (b : Nat) (hb : b < 256) (rest : List Nat) :
    readPayload (byteBits b ++ rest) 0 0 = b :: readPayload rest 0 0 := by
  simp only [byteBits, List.cons_append, List.nil_append, readPayload]
  norm_num
  clear rest
  revert b
  decide

lemma readPayload_frameBits (l : List Nat) (hl : ∀ b ∈ l, b < 256) :
    readPayload (frameBits l) 0 0 = l := by
  induction l with
  | nil => rfl
  | cons b rest ih =>
    rw [frameBits, readPayload_byteBits b (hl b (by simp)) (frameBits rest),
      ih (fun x hx => hl x (by simp [hx]))]

set_option maxHeartbeats 2000000 in
lemma decodeLen_u32_to_le_bytes (L : Nat) :
    decodeLen (frameBits (u32_to_le_bytes L)) 0 = L % 4294967296 := by
  simp only [u32_to_le_bytes, frameBits, byteBits, decodeLen, List.cons_append,
    List.nil_append, List.append_nil, Nat.shiftLeft_eq, Nat.and_one_is_mod,
    Nat.shiftRight_eq_div_pow]
  norm_num
  omega

lemma u32_from_to_le (n : Nat) : u32_from_le_bytes (u32_to_le_bytes n) = n % 4294967296 := by
  simp only [u32_to_le_bytes, u32_from_le_bytes, Nat.shiftRight_eq_div_pow]
  norm_num
  omega

lemma crc_round_lt (crc : Nat) (h : crc < 2 ^ 32) : crc_round crc < 2 ^ 32 := by
  have h1 : crc >>> 1 < 2 ^ 32 := by
    rw [Nat.shiftRight_eq_div_pow]
    exact Nat.lt_of_le_of_lt (Nat.div_le_self _ _) h
  have h2 : (crc &&& 1) * 0xedb88320 < 2 ^ 32 := by
    have hle : crc &&& 1 ≤ 1 := Nat.and_le_right
    calc (crc &&& 1) * 0xedb88320 ≤ 1 * 0xedb88320 := Nat.mul_le_mul_right _ hle
    _ < 2 ^ 32 := by norm_num
  exact Nat.xor_lt_two_pow h1 h2

lemma crc_round_iterate_lt (n crc : Nat) (h : crc < 2 ^ 32) :
    crc_round^[n] crc < 2 ^ 32 := by
  induction n with
  | zero => simpa using h
  | succ n ih => rw [Function.iterate_succ_apply']; exact crc_round_lt _ ih

lemma crc_update_lt (crc byte : Nat) (hc : crc < 2 ^ 32) (hb : byte < 2 ^ 32) :
    crc_update crc byte < 2 ^ 32 :=
  crc_round_iterate_lt 8 _ (Nat.xor_lt_two_pow hc hb)

lemma get_crc_lt (seed : Nat) (data : List Nat) (hs : seed < 2 ^ 32)
    (hd : ∀ b ∈ data, b < 256) : get_crc seed data < 2 ^ 32 := by
  unfold get_crc
  have hinit : seed ^^^ 0xFFFFFFFF < 2 ^ 32 :=
    Nat.xor_lt_two_pow hs (by norm_num)
  have hfold : ∀ (l : List Nat) (init : Nat), init < 2 ^ 32 → (∀ b ∈ l, b < 256) →
      l.foldl crc_update init < 2 ^ 32 := by
    intro l
    induction l with
    | nil => intro init h _; simpa using h
    | cons b rest ih =>
      intro init h hb
      simp only [List.foldl_cons]
      exact ih _ (crc_update_lt _ _ h (Nat.lt_of_lt_of_le (hb b (by simp)) (by norm_num)))
        (fun x hx => hb x (by simp [hx]))
  exact Nat.xor_lt_two_pow (hfold data _ hinit hd) (by norm_num)

lemma frameBits_append (a b : List Nat) :
    frameBits (a ++ b) = frameBits a ++ frameBits b := by
  induction a with
  | nil => simp [frameBits]
  | cons x rest ih => simp [frameBits, ih]

lemma stenFrame_length (p : List Nat) : (stenFrame p).length = p.length + 8 := by
  simp [stenFrame, u32_to_le_bytes]

lemma u32_to_le_bytes_lt (n : Nat) : ∀ b ∈ u32_to_le_bytes n, b < 256 := by
  intro b hb
  simp only [u32_to_le_bytes, List.mem_cons, List.not_mem_nil, or_false] at hb
  rcases hb with h | h | h | h <;> rw [h] <;> exact Nat.mod_lt _ (by norm_num)

lemma sten_ok (p c : List Nat) (hfit : p.length + 8 ≤ c.length / 8) :
    sten p c = (.ok (), writeBits (frameBits (stenFrame p)) c) := by
  simp only [sten]
  rw [if_neg]
  rw [stenFrame_length]
  omega

/-- C2: get_crc computes exactly the reference bit-reflected CRC-32
(zlib/PNG variant): complement of the seed, per byte XOR into the low
byte then 8 rounds of shift-right-and-conditionally-XOR-0xEDB88320,
complement of the result. -/
theorem get_crc_eq_spec_crc32 (seed : Nat) (data : List Nat) :
    get_crc seed data = get_crc_spec seed data := by
  have hr : crc_round = crc_round_spec := by
    funext c
    unfold crc_round crc_round_spec
    rw [Nat.and_one_is_mod]
    rcases Nat.mod_two_eq_zero_or_one c with h | h <;> rw [h] <;> simp
  have hu : crc_update = fun crc byte => crc_round_spec^[8] (crc ^^^ byte) := by
    funext crc byte
    rw [crc_update, hr]
  unfold get_crc get_crc_spec
  rw [hu]

/-- C7: a carrier shorter than 32 bytes always makes desten fail with
BadPayload, whatever the carrier content and the target type. -/
theorem desten_short_carrier_bad_payload {α : Type}
    (from_raw_bytes : List Nat → Option α) (c : List Nat) (h : c.length < 32) :
    desten from_raw_bytes c = .err .badPayload := by
  unfold desten
  rw [if_pos h]

/-- Witness for C7 at the 31-byte zero carrier. -/
theorem desten_short_carrier_bad_payload_witness :
    (List.replicate 31 (0 : Nat)).length < 32 ∧
    desten vec_from_raw_bytes (List.replicate 31 0) = .err .badPayload :=
  ⟨by decide, desten_short_carrier_bad_payload vec_from_raw_bytes _ (by decide)⟩

/-- C5: sten fails with PayloadTooLarge (reporting the frame length,
payload + 8 bytes, and floor(carrier/8)) exactly when the frame
strictly exceeds floor(carrier/8); on that failure path the carrier is
returned unmodified, and a frame of at most (so in particular exactly)
floor(carrier/8) bytes succeeds. -/
theorem sten_payload_too_large_iff (p c : List Nat) :
    (p.length + 8 > c.length / 8 →
      sten p c = (.error (.payloadTooLarge (p.length + 8) (c.length / 8)), c)) ∧
    (p.length + 8 ≤ c.length / 8 → (sten p c).1 = .ok ()) := by
  constructor
  · intro h
    simp only [sten]
    rw [stenFrame_length, if_pos h]
  · intro h
    rw [sten_ok p c h]

/-- Witness for C5: a 9-byte frame in an empty carrier fails reporting
(9, 0) with the carrier untouched; a 32-byte frame exactly fills a
256-byte carrier (max 32) and succeeds. -/
theorem sten_payload_too_large_iff_witness :
    sten [1] [] = (.error (.payloadTooLarge 9 0), []) ∧
    (sten (List.replicate 24 0) (List.replicate 256 13)).1 = .ok () :=
  ⟨(sten_payload_too_large_iff [1] []).1 (by decide),
   (sten_payload_too_large_iff (List.replicate 24 0) (List.replicate 256 13)).2 (by decide)⟩

/-- C3 (code behaviour at the failing input): a 32-byte carrier whose
bit-0 values decode to payload size 1 needs bytes [32, 40) of the
carrier; the source slices container[32..40] unchecked and faults
instead of returning BadPayload. -/
theorem desten_oversized_length_faults :
    desten vec_from_raw_bytes (1 :: List.replicate 31 0) = .fault := by decide

/-- C4 (code behaviour at the failing input): a 56-byte carrier whose
bit-0 values decode to payload size 3 yields a 3-byte
payload_with_checksum; the source computes len - 4 unchecked and faults
instead of returning BadPayload. -/
theorem desten_short_payload_faults :
    desten vec_from_raw_bytes ([1, 1] ++ List.replicate 54 0) = .fault := by decide

/-- C8 counterexample: with T = Vec<u8> the empty input decodes to a
present value, Some of the empty vector, not to the absent value. -/
theorem option_from_raw_bytes_empty_not_none :
    option_from_raw_bytes vec_from_raw_bytes [] = some (some []) ∧
    option_from_raw_bytes vec_from_raw_bytes [] ≠ some none := by decide

lemma desten_ok_inv {α : Type} (f : List Nat → Option α) (c : List Nat) (v : α)
    (h : desten f c = .ok v) : ∃ d, f d = some v := by
  simp only [desten] at h
  split at h
  · simp at h
  · split at h
    · simp at h
    · split at h
      · simp at h
      · split at h
        · simp at h
        · split at h
          · simp at h
          · rename_i v' heq
            injection h with hv
            exact ⟨_, hv ▸ heq⟩

/-- C8 amended: the optional codec delegates every input, empty
included, to the wrapped type's decoder and wraps success in Some; it
can never decode to the absent value, so desten at Option<T> never
returns Ok(None). -/
theorem desten_option_never_absent {α : Type} (tFrom : List Nat → Option α)
    (c : List Nat) : desten (option_from_raw_bytes tFrom) c ≠ .ok none := by
  intro hcon
  obtain ⟨d, hd⟩ := desten_ok_inv _ _ _ hcon
  simp only [option_from_raw_bytes] at hd
  cases htf : tFrom d <;> rw [htf] at hd <;> simp at hd

/-- C10: desten reads a carrier byte only through its least-significant
bit, so two carriers agreeing on bit 0 of every byte (hence of equal
length) produce identical outcomes. -/
theorem desten_depends_only_on_lsb {α : Type}
    (from_raw_bytes : List Nat → Option α) (c1 c2 : List Nat)
    (h : c1.map (· &&& 1) = c2.map (· &&& 1)) :
    desten from_raw_bytes c1 = desten from_raw_bytes c2 := by
  have hlen : c1.length = c2.length := by
    have h2 := congrArg List.length h
    simpa using h2
  have hsize : decodeLen (c1.take 32) 0 = decodeLen (c2.take 32) 0 := by
    rw [← decodeLen_map_and_one (c1.take 32) 0, List.map_take, h, ← List.map_take,
      decodeLen_map_and_one]
  have hslice : ∀ n : Nat,
      readPayload ((c1.drop 32).take n) 0 0 = readPayload ((c2.drop 32).take n) 0 0 := by
    intro n
    rw [← readPayload_map_and_one ((c1.drop 32).take n) 0 0, List.map_take,
      List.map_drop, h, ← List.map_drop, ← List.map_take, readPayload_map_and_one]
  simp only [desten, hlen, hsize, hslice]

/-- Witness for C10: two 40-byte carriers, all-0 and all-2, differ in
bit 1 everywhere but share every bit 0, and desten treats them alike. -/
theorem desten_depends_only_on_lsb_witness :
    desten vec_from_raw_bytes (List.replicate 40 0) =
      desten vec_from_raw_bytes (List.replicate 40 2) :=
  desten_depends_only_on_lsb vec_from_raw_bytes _ _ (by decide)

/-- C1 amended: round-trip for every codec whose deserializer is a left
inverse of the serialized bytes being embedded: if from_raw_bytes
returns v on payload p (true for the fixed-width integer and float
codecs, u8, String, Vec<u8>; not for Option's None or Result's Err,
whose serialization erases the discriminant), p and the carrier are
byte-valued, the frame p+8 fits floor(carrier/8) and the length field
fits a u32, then sten succeeds and desten recovers v. -/
theorem sten_desten_roundtrip_left_inverse {α : Type}
    (from_raw_bytes : List Nat → Option α) (v : α) (p c : List Nat)
    (hp : ∀ b ∈ p, b < 256) (hc : ∀ b ∈ c, b < 256)
    (hinv : from_raw_bytes p = some v)
    (hfit : p.length + 8 ≤ c.length / 8)
    (h32 : p.length + 4 < 4294967296) :
    (sten p c).1 = .ok () ∧ desten from_raw_bytes (sten p c).2 = .ok v := by
  have h8 : 8 * (p.length + 8) ≤ c.length := by
    rw [Nat.le_div_iff_mul_le (by norm_num)] at hfit
    omega
  have hpwclen : (p ++ u32_to_le_bytes (get_crc 0 p)).length = p.length + 4 := by
    simp [u32_to_le_bytes]
  have hsf : stenFrame p
      = u32_to_le_bytes (p.length + 4) ++ (p ++ u32_to_le_bytes (get_crc 0 p)) := by
    simp only [stenFrame]
    rw [hpwclen]
  have hbl : (frameBits (stenFrame p)).length = 8 * (p.length + 8) := by
    rw [frameBits_length, stenFrame_length]
  rw [sten_ok p c hfit]
  refine ⟨rfl, ?_⟩
  have hlen : (writeBits (frameBits (stenFrame p)) c).length = c.length :=
    writeBits_length _ _ (by rw [hbl]; exact h8)
  have hmap : (writeBits (frameBits (stenFrame p)) c).map (· &&& 1)
      = frameBits (stenFrame p) ++ ((c.drop (frameBits (stenFrame p)).length).map (· &&& 1)) :=
    writeBits_map_and_one _ _ (frameBits_lt_two _) hc (by rw [hbl]; exact h8)
  have hfsplit : frameBits (stenFrame p)
      = frameBits (u32_to_le_bytes (p.length + 4))
        ++ frameBits (p ++ u32_to_le_bytes (get_crc 0 p)) := by
    rw [hsf, frameBits_append]
  have hl32 : (frameBits (u32_to_le_bytes (p.length + 4))).length = 32 := by
    rw [frameBits_length]
    simp [u32_to_le_bytes]
  have hlpwc : (frameBits (p ++ u32_to_le_bytes (get_crc 0 p))).length
      = (p.length + 4) * 8 := by
    rw [frameBits_length, hpwclen]
    ring
  have htake32 : ((writeBits (frameBits (stenFrame p)) c).take 32).map (· &&& 1)
      = frameBits (u32_to_le_bytes (p.length + 4)) := by
    rw [List.map_take, hmap, hfsplit, List.append_assoc, List.take_left' hl32]
  have hsize : decodeLen ((writeBits (frameBits (stenFrame p)) c).take 32) 0
      = p.length + 4 := by
    rw [← decodeLen_map_and_one ((writeBits (frameBits (stenFrame p)) c).take 32) 0,
      htake32, decodeLen_u32_to_le_bytes, Nat.mod_eq_of_lt h32]
  have hslice : (((writeBits (frameBits (stenFrame p)) c).drop 32).take
        ((p.length + 4) * 8)).map (· &&& 1)
      = frameBits (p ++ u32_to_le_bytes (get_crc 0 p)) := by
    rw [List.map_take, List.map_drop, hmap, hfsplit, List.append_assoc,
      List.drop_left' hl32, List.take_left' hlpwc]
  have hpwc : readPayload (((writeBits (frameBits (stenFrame p)) c).drop 32).take
        ((p.length + 4) * 8)) 0 0
      = p ++ u32_to_le_bytes (get_crc 0 p) := by
    rw [← readPayload_map_and_one _ 0 0, hslice, readPayload_frameBits]
    intro b hb
    rcases List.mem_append.1 hb with h | h
    · exact hp b h
    · exact u32_to_le_bytes_lt _ b h
  have hcrclt : get_crc 0 p < 4294967296 := by
    have hlt := get_crc_lt 0 p (by norm_num) hp
    norm_num at hlt
    exact hlt
  simp only [desten]
  rw [if_neg (by rw [hlen]; omega)]
  rw [hsize]
  rw [if_neg (by rw [hlen]; omega)]
  rw [hpwc]
  rw [hpwclen]
  rw [if_neg (by omega)]
  have h44 : p.length + 4 - 4 = p.length := by omega
  rw [h44, List.take_left, List.drop_left, u32_from_to_le, Nat.mod_eq_of_lt hcrclt]
  rw [if_neg (by simp)]
  rw [hinv]

/-- Witness for the amended C1 at the Vec<u8> codec: embedding the
bytes [1,3,5,7,9] in a 256-byte carrier of 13s and extracting returns
them. -/
theorem sten_desten_roundtrip_left_inverse_witness :
    (sten [1, 3, 5, 7, 9] (List.replicate 256 13)).1 = .ok () ∧
    desten vec_from_raw_bytes (sten [1, 3, 5, 7, 9] (List.replicate 256 13)).2
      = .ok [1, 3, 5, 7, 9] :=
  sten_desten_roundtrip_left_inverse vec_from_raw_bytes [1, 3, 5, 7, 9]
    [1, 3, 5, 7, 9] (List.replicate 256 13) (by decide) (by decide) rfl
    (by decide) (by decide)

/-- C1 counterexample: Option<Vec<u8>> is a supported type and None a
value whose frame (8 bytes) fits a 256-byte carrier, yet extracting
after embedding returns Ok(Some([])), not the embedded None. -/
theorem sten_desten_not_id_on_option_none :
    (option_get_raw_bytes vec_get_raw_bytes (none : Option (List Nat))).length + 8
      ≤ (List.replicate 256 (13 : Nat)).length / 8 ∧
    (sten (option_get_raw_bytes vec_get_raw_bytes (none : Option (List Nat)))
      (List.replicate 256 13)).1 = .ok () ∧
    desten (option_from_raw_bytes vec_from_raw_bytes)
      (sten (option_get_raw_bytes vec_get_raw_bytes (none : Option (List Nat)))
        (List.replicate 256 13)).2 = .ok (some []) ∧
    DestenResult.ok (some ([] : List Nat)) ≠ .ok (none : Option (List Nat)) := by
  refine ⟨by decide, by decide, by decide, by decide⟩

/-- C6: when sten succeeds (frame of p.length + 8 bytes fitting the
carrier), the carrier keeps its length, every byte from index
8*(p.length+8) on is unchanged, and every byte keeps bits 1 through 7
(only bit 0 of consumed bytes is rewritten). -/
theorem sten_untouched_bits (p c : List Nat) (hc : ∀ b ∈ c, b < 256)
    (hfit : p.length + 8 ≤ c.length / 8) :
    (sten p c).1 = .ok () ∧
    (sten p c).2.length = c.length ∧
    (sten p c).2.drop (8 * (p.length + 8)) = c.drop (8 * (p.length + 8)) ∧
    (sten p c).2.map (· >>> 1) = c.map (· >>> 1) := by
  have hbl : (frameBits (stenFrame p)).length = 8 * (p.length + 8) := by
    rw [frameBits_length, stenFrame_length]
  have h8 : 8 * (p.length + 8) ≤ c.length := by
    rw [Nat.le_div_iff_mul_le (by norm_num)] at hfit
    omega
  rw [sten_ok p c hfit]
  refine ⟨rfl, ?_, ?_, ?_⟩
  · exact writeBits_length _ _ (by rw [hbl]; exact h8)
  · rw [← hbl, writeBits_drop]
  · exact writeBits_map_shiftRight _ _ (frameBits_lt_two _) hc

/-- Witness for C6: a one-byte payload in a 128-byte carrier of 255s. -/
theorem sten_untouched_bits_witness :
    (sten [7] (List.replicate 128 255)).1 = .ok () ∧
    (sten [7] (List.replicate 128 255)).2.length = (List.replicate 128 (255 : Nat)).length ∧
    (sten [7] (List.replicate 128 255)).2.drop (8 * (([7] : List Nat).length + 8))
      = (List.replicate 128 (255 : Nat)).drop (8 * (([7] : List Nat).length + 8)) ∧
    (sten [7] (List.replicate 128 255)).2.map (· >>> 1)
      = (List.replicate 128 (255 : Nat)).map (· >>> 1) :=
  sten_untouched_bits [7] (List.replicate 128 255) (by decide) (by decide)

/-- C9: the concrete scenario: a 256-byte carrier of 13s, embedding the
u8 value 255 succeeds, the frame is [5,0,0,0,255] followed by the four
little-endian bytes of CRC-32(0,[255]), its bits occupy bit 0 of the
first 72 carrier bytes LSB-first (bits 1-7 of those bytes and all later
bytes keep the value 13), and desten returns 255. -/
theorem sten_concrete_scenario_u8_255 :
    (sten (u8_get_raw_bytes 255) (List.replicate 256 13)).1 = .ok () ∧
    stenFrame (u8_get_raw_bytes 255) = [5, 0, 0, 0, 255] ++ u32_to_le_bytes (get_crc 0 [255]) ∧
    ((sten (u8_get_raw_bytes 255) (List.replicate 256 13)).2.take 72).map (· &&& 1)
      = frameBits ([5, 0, 0, 0, 255] ++ u32_to_le_bytes (get_crc 0 [255])) ∧
    ((sten (u8_get_raw_bytes 255) (List.replicate 256 13)).2.take 72).map (· >>> 1)
      = List.replicate 72 6 ∧
    (sten (u8_get_raw_bytes 255) (List.replicate 256 13)).2.drop 72 = List.replicate 184 13 ∧
    desten u8_from_raw_bytes (sten (u8_get_raw_bytes 255) (List.replicate 256 13)).2
      = .ok 255 := by
  refine ⟨by decide, by decide, by decide, by decide, by decide, by decide⟩

/-- Witness for the amended C8 at the Vec<u8> codec and the empty
carrier. -/
theorem desten_option_never_absent_witness :
    desten (option_from_raw_bytes vec_from_raw_bytes) [] ≠ .ok none :=
  desten_option_never_absent vec_from_raw_bytes []
